import Mathlib

/-!
Shallow embedding of the Decision-Driven EDA engine
(`backend/app/services/decision_eda_service.py`, function
`compute_decision_eda_stats`, helper `infer_column_type`).

Datasets loaded by the service come from CSV files, so every column is
either numeric-dtyped or object-(string-)dtyped; cells may be missing.
Machine floats are modelled by exact rationals; `round(x, d)` is modelled
by rounding `x * 10^d` to the nearest integer.  Fallible computation is
modelled by `Except String`, the error payload being the exception message.
-/

namespace Data4Viz

/-! ### Decimal string parsing (model of `pandas.to_numeric` on strings) -/

/-- Strip leading and trailing whitespace (Python `str.strip()`). -/
def trimStr (s : String) : String :=
  ⟨((s.data.dropWhile Char.isWhitespace).reverse.dropWhile
    Char.isWhitespace).reverse⟩

/-- Lowercase every character (Python `str.lower()`). -/
def lowerStr (s : String) : String :=
  ⟨s.data.map Char.toLower⟩

/-- Numeric value of a digit list (most significant first). -/
def natVal (l : List Char) : ℕ :=
  l.foldl (fun n c => 10 * n + (c.toNat - 48)) 0

/-- Parse an unsigned decimal literal `digits[.digits]` (either side of the
dot may be empty, but not both), as `float`/`to_numeric` accept.
Scientific notation is outside the modelled fragment. -/
def parseUnsigned (l : List Char) : Option ℚ :=
  let p := l.span Char.isDigit
  match p.2 with
  | [] => if p.1.isEmpty then none else some (natVal p.1)
  | '.' :: b =>
    if b.all Char.isDigit && !(p.1.isEmpty && b.isEmpty) then
      some ((natVal p.1 : ℚ) + (natVal b : ℚ) / (10 : ℚ) ^ b.length)
    else none
  | _ => none

/-- Model of `pandas.to_numeric(s, errors="coerce")` on a single string:
surrounding whitespace is tolerated, an optional sign, then a decimal
literal; anything else coerces to missing. -/
def parseNum (s : String) : Option ℚ :=
  match (trimStr s).toList with
  | '+' :: rest => parseUnsigned rest
  | '-' :: rest => (parseUnsigned rest).map (fun q => -q)
  | l => parseUnsigned l

/-! ### Numeric helpers -/

/-- Model of Python `round(x, d)` on exact values. -/
def roundTo (d : ℕ) (x : ℚ) : ℚ :=
  (round (x * 10 ^ d) : ℚ) / 10 ^ d

/-- Mean of a sample; `none` on an empty sample (pandas returns NaN). -/
def meanQ (l : List ℚ) : Option ℚ :=
  if l = [] then none else some (l.sum / l.length)

/-- Model of `Series.quantile(q)` with the default linear interpolation:
with the sample sorted ascending and `pos = q * (n - 1)`, interpolate
between the cells at `⌊pos⌋` and `⌊pos⌋ + 1`.  `none` on an empty sample. -/
def quantileQ (l : List ℚ) (q : ℚ) : Option ℚ :=
  let s := l.insertionSort (· ≤ ·)
  if s.isEmpty then none
  else
    let n := s.length
    let pos : ℚ := q * ((n : ℚ) - 1)
    let i : ℕ := (⌊pos⌋).toNat
    let lo := s.getD i 0
    let hi := s.getD (min (i + 1) (n - 1)) 0
    some (lo + (pos - (i : ℚ)) * (hi - lo))

/-! ### Data model -/

/-- A CSV-loaded column body: either numeric dtype or object (string)
dtype; `none` is a missing cell. -/
inductive ColData where
  | nums (cells : List (Option ℚ))
  | strs (cells : List (Option String))
deriving DecidableEq

/-- Number of cells in a column body. -/
def ColData.size : ColData → ℕ
  | nums cs => cs.length
  | strs cs => cs.length

/-- A named column. -/
structure Col where
  name : String
  data : ColData
deriving DecidableEq

/-- A dataframe: a row count and an ordered list of named columns. -/
structure DFrame where
  nrows : ℕ
  cols : List Col

/-- Every column has exactly `nrows` cells and column names are distinct
(pandas mangles duplicate CSV headers, so loaded frames satisfy this). -/
def DFrame.Wellformed (df : DFrame) : Prop :=
  (∀ c ∈ df.cols, c.data.size = df.nrows) ∧ (df.cols.map Col.name).Nodup

/-- `pd.to_numeric(column, errors="coerce")`: identity on numeric columns,
per-cell string parsing on object columns. -/
def toNumCells : ColData → List (Option ℚ)
  | .nums cs => cs
  | .strs cs => cs.map (fun c => c.bind parseNum)

/-- STEP 1 cleaning of one object-column cell:
`astype(str).str.strip().replace(["", "nan", "None", "null"], NA)`.
A missing cell stringifies to `"nan"`, which the replace turns back into
missing. -/
def cleanCell (c : Option String) : Option String :=
  match c with
  | none => none
  | some s =>
    let t := trimStr s
    if t = "" ∨ t = "nan" ∨ t = "None" ∨ t = "null" then none else some t

/-- STEPS 1–2 on the decision-metric column: clean (object dtype only),
then coerce to numeric. -/
def coerceTarget : ColData → List (Option ℚ)
  | .nums cs => cs
  | .strs cs => cs.map (fun c => (cleanCell c).bind parseNum)

/-! ### Column type inference (`infer_column_type`) -/

/-- Model of `infer_column_type`.  `pdate` models
`pd.to_datetime(..., errors="coerce")` on one string, returning the parsed
year when the parse succeeds.  Numeric dtype is numeric; an object column
is numeric when more than 80% of its cells coerce, datetime when more than
70% date-parse with all years in [1900, 2100], else categorical. -/
def inferColumnType (pdate : String → Option Int) : ColData → String
  | .nums _ => "numeric"
  | .strs cs =>
    let ok := (cs.filterMap (fun c => c.bind parseNum)).length
    if 8 * cs.length < 10 * ok then "numeric"
    else
      let years := cs.filterMap (fun c => c.bind pdate)
      if decide (7 * cs.length < 10 * years.length) && !years.isEmpty &&
          years.all (fun y => decide (1900 ≤ y) && decide (y ≤ 2100)) then "datetime"
      else "categorical"

/-! ### Column exclusion (step 2 of the service) -/

/-- `df[col].nunique(dropna=True)`. -/
def ColData.uniqueCount : ColData → ℕ
  | .nums cs => (cs.filterMap id).dedup.length
  | .strs cs => (cs.filterMap id).dedup.length

/-- `unique_count / total_rows * 100` (0 when the frame is empty). -/
def uniquePct (totalRows : ℕ) (d : ColData) : ℚ :=
  if 0 < totalRows then (d.uniqueCount : ℚ) / (totalRows : ℚ) * 100 else 0

/-- Substring test on character lists. -/
def containsSub (pat : List Char) : List Char → Bool
  | [] => pat.isEmpty
  | c :: cs => pat.isPrefixOf (c :: cs) || containsSub pat cs

/-- Python `pat in s`. -/
def strContains (s pat : String) : Bool :=
  containsSub pat.toList s.toList

/-- The fixed `excluded_patterns` keyword list. -/
def excludedKeywords : List String :=
  ["id", "url", "description", "title", "summary", "name", "email", "address"]

/-- The exclusion decision for one non-target column: the `if`/`elif`
chain of the service, returning the reason of the first matching check
(or `none`).  Checks: uniqueness above 80%, then name keywords, then
long text sampling on categorical columns. -/
def exclusionReason (pdate : String → Option Int) (totalRows : ℕ) (c : Col) :
    Option String :=
  let upct := uniquePct totalRows c.data
  let low := lowerStr c.name
  if 80 < upct then some "High uniqueness"
  else if excludedKeywords.any (fun p => strContains low p) then
    some (if strContains low "url" || strContains low "link" then "URL column"
      else if strContains low "description" || strContains low "text" ||
          strContains low "comment" then "Free-text column"
      else if strContains low "id" && decide (50 < upct) then "Identifier column"
      else "Text/identifier pattern")
  else
    match c.data with
    | .nums _ => none
    | .strs cs =>
      if inferColumnType pdate c.data = "categorical" then
        let sample := (cs.filterMap id).take 100
        if sample ≠ [] ∧ 50 * sample.length < (sample.map String.length).sum then
          some "Free-text column"
        else none
      else none

/-- `excluded_columns`: every non-target column paired with its exclusion
reason, in column order. -/
def excludedColumnsOf (pdate : String → Option Int) (df : DFrame)
    (metric : String) : List (String × String) :=
  df.cols.filterMap (fun c =>
    if c.name = metric then none
    else (exclusionReason pdate df.nrows c).map (fun r => (c.name, r)))

/-- `any(exc["column"] == col for exc in excluded_columns)`. -/
def isExcluded (pdate : String → Option Int) (df : DFrame) (metric : String)
    (colName : String) : Bool :=
  (excludedColumnsOf pdate df metric).any (fun e => e.1 == colName)

/-! ### Correlation factors (step 3 of the service) -/

/-- `df.cols.find` on the decision metric name. -/
def targetCol? (df : DFrame) (metric : String) : Option Col :=
  df.cols.find? (fun c => c.name = metric)

/-- The cleaned, coerced decision-metric series (empty when the metric
column is absent; `compute` rejects that case first). -/
def coercedTarget (df : DFrame) (metric : String) : List (Option ℚ) :=
  match targetCol? df metric with
  | some c => coerceTarget c.data
  | none => []

/-- Rows where both the coerced target and the coerced factor column are
present, in row order, as (target, factor) pairs: the sample over which
`decision_valid[valid_col_mask].corr(col_series[valid_col_mask])` runs. -/
def validPairs (coerced : List (Option ℚ)) (d : ColData) : List (ℚ × ℚ) :=
  (List.zip coerced (toNumCells d)).filterMap (fun p =>
    match p with
    | (some y, some x) => some (y, x)
    | _ => none)

/-- One entry of the `correlations` list. -/
structure CorrEntry where
  factor : String
  correlation : ℚ
  absCorrelation : ℚ
deriving DecidableEq

/-- The `correlations` list: one entry per non-target, non-excluded,
numeric-typed column with at least 10 valid pairs and a well-defined
correlation, in column order.  `corrFn` models `Series.corr` (Pearson),
returning `none` for NaN. -/
def correlationsOf (pdate : String → Option Int)
    (corrFn : List (ℚ × ℚ) → Option ℚ) (df : DFrame) (metric : String) :
    List CorrEntry :=
  df.cols.filterMap (fun c =>
    if c.name = metric then none
    else if isExcluded pdate df metric c.name then none
    else if inferColumnType pdate c.data = "numeric" then
      let pairs := validPairs (coercedTarget df metric) c.data
      if pairs.length < 10 then none
      else
        match corrFn pairs with
        | some r => some ⟨c.name, roundTo 4 r, roundTo 4 |r|⟩
        | none => none
    else none)

/-! ### Segment impact factors (step 4 of the service) -/

/-- Distinct non-missing values of a categorical column over target-valid
rows (`groupby` drops missing keys). -/
def groupKeys (coerced : List (Option ℚ)) (cs : List (Option String)) :
    List String :=
  ((List.zip coerced cs).filterMap (fun p =>
    match p with
    | (some _, some v) => some v
    | _ => none)).dedup

/-- Target values of one group: target-valid rows whose column cell
equals the key. -/
def groupVals (coerced : List (Option ℚ)) (cs : List (Option String))
    (v : String) : List ℚ :=
  (List.zip coerced cs).filterMap (fun p =>
    match p with
    | (some y, some w) => if w = v then some y else none
    | _ => none)

/-- One entry of the `segment_impacts` list.  The `top_segments` /
`bottom_segments` previews carried by the source dict are presentation
only and not modelled. -/
structure SegEntry where
  factor : String
  meanDifference : ℚ
  relativeImpactPct : ℚ
deriving DecidableEq

/-- The `segment_impacts` list: one entry per non-target, non-excluded,
categorical-typed column with at least 2 groups having a well-defined
target mean, in column order.  The impact is the max-min group-mean gap
relative to the overall target mean (raw gap when that mean is zero). -/
def segmentImpactsOf (pdate : String → Option Int) (df : DFrame)
    (metric : String) : List SegEntry :=
  df.cols.filterMap (fun c =>
    if c.name = metric then none
    else if isExcluded pdate df metric c.name then none
    else if inferColumnType pdate c.data = "categorical" then
      match c.data with
      | .nums _ => none
      | .strs cs =>
        let coerced := coercedTarget df metric
        let means := (groupKeys coerced cs).filterMap
          (fun v => meanQ (groupVals coerced cs v))
        match means with
        | [] => none
        | m :: rest =>
          if (m :: rest).length < 2 then none
          else
            let meanDiff := rest.foldl max m - rest.foldl min m
            let overall := (meanQ (coerced.filterMap id)).getD 0
            let rel := if overall ≠ 0 then |meanDiff / overall| * 100
              else |meanDiff|
            some ⟨c.name, roundTo 4 meanDiff, roundTo 2 rel⟩
    else none)

/-! ### Ranking, deduplication, top factors (step 5 of the service) -/

/-- One entry of the combined `factors` list (rank-relevant fields). -/
structure Factor where
  factor : String
  impactScore : ℚ
  ftype : String
deriving DecidableEq

/-- The combined `factors` list: numeric factors scored by
`round(abs_correlation * 100, 2)`, then categorical factors scored by
`round(relative_impact_pct, 2)`. -/
def factorsOf (corrs : List CorrEntry) (segs : List SegEntry) : List Factor :=
  corrs.map (fun c => ⟨c.factor, roundTo 2 (c.absCorrelation * 100), "numeric"⟩)
    ++ segs.map (fun s => ⟨s.factor, roundTo 2 s.relativeImpactPct, "categorical"⟩)

/-- Lexicographic-or-equal comparison of character lists by code point,
matching Python string comparison. -/
def listLE : List Char → List Char → Bool
  | [], _ => true
  | _ :: _, [] => false
  | a :: as, b :: bs =>
    if a.toNat < b.toNat then true
    else if b.toNat < a.toNat then false
    else listLE as bs

/-- Python `a <= b` on strings (code-point lexicographic). -/
def strLE (a b : String) : Bool :=
  listLE a.data b.data

/-- The sort relation of `key=lambda x: (-score, name)`: descending score
with ties broken by ascending name. -/
def keyLE (score : α → ℚ) (nm : α → String) (a b : α) : Prop :=
  score b < score a ∨ (score a = score b ∧ strLE (nm a) (nm b) = true)

instance (score : α → ℚ) (nm : α → String) : DecidableRel (keyLE score nm) :=
  fun _ _ => inferInstanceAs (Decidable (_ ∨ _))

/-- The `factors.sort` relation. -/
def factorLE : Factor → Factor → Prop :=
  keyLE Factor.impactScore Factor.factor

instance : DecidableRel factorLE :=
  fun a b => inferInstanceAs (Decidable (keyLE _ _ a b))

/-- The `all_correlations` sort relation
(`key=lambda x: (-abs(correlation), factor)`). -/
def corrLE : CorrEntry → CorrEntry → Prop :=
  keyLE (fun e => |e.correlation|) CorrEntry.factor

instance : DecidableRel corrLE :=
  fun a b => inferInstanceAs (Decidable (keyLE _ _ a b))

/-- The `all_segment_impacts` sort relation
(`key=lambda x: (-relative_impact_pct, factor)`). -/
def segLE : SegEntry → SegEntry → Prop :=
  keyLE SegEntry.relativeImpactPct SegEntry.factor

instance : DecidableRel segLE :=
  fun a b => inferInstanceAs (Decidable (keyLE _ _ a b))

/-- Stable sort of the factor list (Python `list.sort` is stable; a
stable sort under a total preorder is unique, so insertion sort
reproduces it exactly). -/
def sortFactors (fs : List Factor) : List Factor :=
  fs.insertionSort factorLE

/-- The deduplication loop: first occurrence of a name is kept; a later
occurrence with a strictly higher score replaces the kept entry (removed
from its position, appended at the end), mirroring the `seen_factors` /
`deduplicated_factors` loop of the source. -/
def dedupLoop : List Factor → List (String × Factor) → List Factor → List Factor
  | [], _, acc => acc
  | f :: rest, seen, acc =>
    match List.lookup f.factor seen with
    | none => dedupLoop rest ((f.factor, f) :: seen) (acc ++ [f])
    | some g =>
      if g.impactScore < f.impactScore then
        dedupLoop rest ((f.factor, f) :: seen) (acc.erase g ++ [f])
      else dedupLoop rest seen acc

/-- `deduplicated_factors` built from a (sorted) factor list. -/
def dedupFactors (fs : List Factor) : List Factor :=
  dedupLoop fs [] []

/-- Sort, deduplicate, re-sort: the full step-5 ranking. -/
def rankedFactors (corrs : List CorrEntry) (segs : List SegEntry) :
    List Factor :=
  sortFactors (dedupFactors (sortFactors (factorsOf corrs segs)))

/-- `top_factors`: the first 5 ranked entries. -/
def topFactorsOf (corrs : List CorrEntry) (segs : List SegEntry) :
    List Factor :=
  (rankedFactors corrs segs).take 5

/-! ### Outlier diagnostics (IQR method) -/

/-- Number of target-valid values strictly outside
`[Q1 - 1.5*IQR, Q3 + 1.5*IQR]` (0 on an empty sample, which `compute`
rules out). -/
def outlierCountOf (vals : List ℚ) : ℕ :=
  match quantileQ vals (1 / 4), quantileQ vals (3 / 4) with
  | some q1, some q3 =>
    let iqr := q3 - q1
    vals.countP (fun v =>
      decide (v < q1 - 3 / 2 * iqr) || decide (q3 + 3 / 2 * iqr < v))
  | _, _ => 0

/-! ### The analyze operation -/

/-- The compact output summary.  The `decision_metric_stats` block
(mean/median/std/min/max of the target) is presentation only and not
modelled (its `std` is a square root, outside the exact fragment). -/
structure Summary where
  decisionMetric : String
  totalRows : ℕ
  validRows : ℕ
  missingPercentage : ℚ
  outlierCount : ℕ
  outlierPercentage : ℚ
  topFactors : List Factor
  allCorrelations : List CorrEntry
  allSegmentImpacts : List SegEntry
  excludedColumns : List (String × String)
deriving DecidableEq

/-- The message of the semantic metric-validation error. -/
def invalidMetricMsg : String :=
  "The selected metric contains non-numeric values and cannot be analyzed. Please clean or convert this column to numeric values."

/-- Model of `compute_decision_eda_stats` on an already-loaded frame.
`pdate` models string date parsing, `corrFn` models `Series.corr`.
The target is cleaned and coerced; if no cell coerces, or fewer than 90%
of the cells coerce, the analysis fails with `invalidMetricMsg` and no
summary is produced.  Otherwise exclusion, correlation, segment, ranking
and outlier stages run as defined above.  `all_correlations` and
`all_segment_impacts` take the FIRST 10 entries in column order and then
sort that slice (`sorted(correlations[:10], ...)` in the source). -/
def buildSummary (pdate : String → Option Int)
    (corrFn : List (ℚ × ℚ) → Option ℚ) (df : DFrame) (metric : String)
    (tc : Col) : Summary :=
  let coerced := coerceTarget tc.data
  let validCount := (coerced.filterMap id).length
  let totalRows := df.nrows
  let vals := coerced.filterMap id
  let missingPct := if 0 < totalRows then
    roundTo 2 (((totalRows : ℚ) - (validCount : ℚ)) / (totalRows : ℚ) * 100)
    else 0
  let oc := outlierCountOf vals
  let opc := if 0 < validCount then
    roundTo 2 ((oc : ℚ) / (validCount : ℚ) * 100) else 0
  let corrs := correlationsOf pdate corrFn df metric
  let segs := segmentImpactsOf pdate df metric
  { decisionMetric := metric
    totalRows := totalRows
    validRows := validCount
    missingPercentage := missingPct
    outlierCount := oc
    outlierPercentage := opc
    topFactors := topFactorsOf corrs segs
    allCorrelations := (corrs.take 10).insertionSort corrLE
    allSegmentImpacts := (segs.take 10).insertionSort segLE
    excludedColumns := excludedColumnsOf pdate df metric }

/-- Model of `compute_decision_eda_stats` given an already-loaded frame:
target validation gate, then summary assembly. -/
def compute (pdate : String → Option Int)
    (corrFn : List (ℚ × ℚ) → Option ℚ) (df : DFrame) (metric : String) :
    Except String Summary :=
  match targetCol? df metric with
  | none => .error ("Column '" ++ metric ++ "' not found in dataset")
  | some tc =>
    if ((coerceTarget tc.data).filterMap id).length = 0 ∨
        (((coerceTarget tc.data).filterMap id).length : ℚ) /
          ((coerceTarget tc.data).length : ℚ) < 9 / 10 then
      .error invalidMetricMsg
    else
      .ok (buildSummary pdate corrFn df metric tc)

/-! ### A concrete Pearson correlation

`Series.corr` computes `Sxy / sqrt(Sxx * Syy)`.  The embedding keeps the
correlation function as a parameter of `compute`; for running the model
on concrete frames we use `pearson` below, which is exact whenever
`sqrt(Sxx * Syy)` is rational — true of every concrete frame in this
development (their factor columns are affine in the target, giving
correlations of exactly ±1). -/

/-- Integer square root (largest `s` with `s * s ≤ n`), by structural
recursion so that concrete runs reduce inside the kernel. -/
def floorSqrt : ℕ → ℕ
  | 0 => 0
  | n + 1 =>
    let s := floorSqrt n
    if (s + 1) * (s + 1) ≤ n + 1 then s + 1 else s

/-- Rational square root when it exists (a reduced fraction has a
rational square root exactly when numerator and denominator are perfect
squares). -/
def ratSqrt (q : ℚ) : Option ℚ :=
  if q < 0 then none
  else
    let n := q.num.toNat
    let sn := floorSqrt n
    let sd := floorSqrt q.den
    if sn * sn = n ∧ sd * sd = q.den then some ((sn : ℚ) / (sd : ℚ))
    else none

/-- Pearson correlation of paired samples, `none` when pandas returns NaN
(fewer than 2 pairs or zero variance), and also `none` outside the
exactly-representable domain (never hit by the frames below). -/
def pearson (ps : List (ℚ × ℚ)) : Option ℚ :=
  if ps.length < 2 then none
  else
    let n : ℚ := (ps.length : ℚ)
    let ybar := (ps.map Prod.fst).sum / n
    let xbar := (ps.map Prod.snd).sum / n
    let syy := (ps.map (fun p => (p.1 - ybar) ^ 2)).sum
    let sxx := (ps.map (fun p => (p.2 - xbar) ^ 2)).sum
    let sxy := (ps.map (fun p => (p.1 - ybar) * (p.2 - xbar))).sum
    if sxx = 0 ∨ syy = 0 then none
    else (ratSqrt (sxx * syy)).map (fun s => sxy / s)

/-- Date parser used for the concrete frames: nothing date-parses. -/
def pd0 : String → Option Int := fun _ => none

/-! ### Concrete frames -/

/-- Numeric column with no missing cells. -/
def numsOf (l : List ℚ) : ColData :=
  .nums (l.map some)

/-- 12 target values with only 2 distinct values (keeps copies of the
target below the 80% uniqueness exclusion threshold, with a small
variance so that the correlation denominator stays tiny). -/
def t12 : List ℚ :=
  [1, 1, 1, 1, 1, 1, 2, 2, 2, 2, 2, 2]

/-- A frame with 11 numeric factor columns, each an exact copy of the
target, so every factor has Pearson correlation exactly 1.  Column `"a"`
comes last in column order but first in the (score, name) sort order. -/
def dfBig : DFrame :=
  ⟨12,
    [⟨"t", numsOf t12⟩,
     ⟨"b01", numsOf t12⟩, ⟨"b02", numsOf t12⟩, ⟨"b03", numsOf t12⟩,
     ⟨"b04", numsOf t12⟩, ⟨"b05", numsOf t12⟩, ⟨"b06", numsOf t12⟩,
     ⟨"b07", numsOf t12⟩, ⟨"b08", numsOf t12⟩, ⟨"b09", numsOf t12⟩,
     ⟨"b10", numsOf t12⟩, ⟨"a", numsOf t12⟩]⟩

/-- The summary of a successful concrete run (the error fallback is
never taken on the frames below, all of which have target column `"t"`). -/
def sOf (df : DFrame) : Summary :=
  match compute pd0 pearson df "t" with
  | .ok s => s
  | .error _ => ⟨"", 0, 0, 0, 0, 0, [], [], [], []⟩

/-- 100-row frame whose target has exactly 90 coercible cells. -/
def df90 : DFrame :=
  ⟨100, [⟨"t", .nums (List.replicate 90 (some 1) ++ List.replicate 10 none)⟩]⟩

/-- 100-row frame whose target has exactly 89 coercible cells. -/
def df89 : DFrame :=
  ⟨100, [⟨"t", .nums (List.replicate 89 (some 1) ++ List.replicate 11 none)⟩]⟩

/-- A fully unique identifier column named `"user_id"`: matches both the
high-uniqueness check and the `"id"` keyword pattern. -/
def dfId : DFrame :=
  ⟨5,
    [⟨"t", numsOf [1, 2, 2, 3, 3]⟩,
     ⟨"user_id", .strs [some "u1", some "u2", some "u3", some "u4", some "u5"]⟩]⟩

/-- A frame with one categorical factor of two segments. -/
def dfSeg : DFrame :=
  ⟨10,
    [⟨"t", numsOf [1, 2, 3, 4, 5, 6, 7, 8, 9, 10]⟩,
     ⟨"region", .strs [some "x", some "x", some "x", some "x", some "x",
       some "y", some "y", some "y", some "y", some "y"]⟩]⟩

/-- A frame whose target has a single extreme outlier. -/
def dfOut : DFrame :=
  ⟨5, [⟨"t", numsOf [1, 2, 3, 4, 100]⟩]⟩

/-- A numeric factor with only 9 rows present: below the 10-pair floor. -/
def dfDrop : DFrame :=
  ⟨12,
    [⟨"t", numsOf t12⟩,
     ⟨"f", .nums [some 1, some 1, some 2, some 2, some 3, some 3, some 4,
       some 4, some 5, none, none, none]⟩]⟩

/-- A zero-row frame that still declares the target column. -/
def dfZero : DFrame :=
  ⟨0, [⟨"t", .nums []⟩]⟩

/-! ### Order facts about the sort keys -/

theorem listLE_total (a : List Char) : ∀ b, listLE a b = true ∨ listLE b a = true := by
  induction a with
  | nil =>
    intro b
    exact Or.inl rfl
  | cons x xs ih =>
    intro b
    cases b with
    | nil => exact Or.inr rfl
    | cons y ys =>
      simp only [listLE]
      rcases Nat.lt_trichotomy x.toNat y.toNat with h | h | h
      · exact Or.inl (by rw [if_pos h])
      · have h1 : ¬ x.toNat < y.toNat := by omega
        have h2 : ¬ y.toNat < x.toNat := by omega
        rcases ih ys with h3 | h3
        · exact Or.inl (by rw [if_neg h1, if_neg h2]; exact h3)
        · exact Or.inr (by rw [if_neg h2, if_neg h1]; exact h3)
      · exact Or.inr (by rw [if_pos h])

theorem listLE_trans (a : List Char) : ∀ b c, listLE a b = true →
    listLE b c = true → listLE a c = true := by
  induction a with
  | nil =>
    intro b c _ _
    rfl
  | cons x xs ih =>
    intro b c hab hbc
    cases b with
    | nil => simp [listLE] at hab
    | cons y ys =>
      cases c with
      | nil => simp [listLE] at hbc
      | cons z zs =>
        simp only [listLE] at hab hbc ⊢
        by_cases h1 : x.toNat < y.toNat
        · by_cases h2 : y.toNat < z.toNat
          · rw [if_pos (by omega : x.toNat < z.toNat)]
          · by_cases h3 : z.toNat < y.toNat
            · rw [if_neg h2, if_pos h3] at hbc
              exact absurd hbc (by simp)
            · rw [if_pos (by omega : x.toNat < z.toNat)]
        · by_cases h4 : y.toNat < x.toNat
          · rw [if_neg h1, if_pos h4] at hab
            exact absurd hab (by simp)
          · rw [if_neg h1, if_neg h4] at hab
            by_cases h2 : y.toNat < z.toNat
            · rw [if_pos (by omega : x.toNat < z.toNat)]
            · by_cases h3 : z.toNat < y.toNat
              · rw [if_neg h2, if_pos h3] at hbc
                exact absurd hbc (by simp)
              · rw [if_neg h2, if_neg h3] at hbc
                rw [if_neg (by omega : ¬ x.toNat < z.toNat),
                  if_neg (by omega : ¬ z.toNat < x.toNat)]
                exact ih ys zs hab hbc

theorem keyLE_total (score : α → ℚ) (nm : α → String) (a b : α) :
    keyLE score nm a b ∨ keyLE score nm b a := by
  unfold keyLE
  rcases lt_trichotomy (score a) (score b) with h | h | h
  · exact Or.inr (Or.inl h)
  · rcases listLE_total (nm a).data (nm b).data with hn | hn
    · exact Or.inl (Or.inr ⟨h, hn⟩)
    · exact Or.inr (Or.inr ⟨h.symm, hn⟩)
  · exact Or.inl (Or.inl h)

theorem keyLE_trans (score : α → ℚ) (nm : α → String) (a b c : α)
    (hab : keyLE score nm a b) (hbc : keyLE score nm b c) :
    keyLE score nm a c := by
  unfold keyLE at *
  rcases hab with h1 | ⟨h1, h1n⟩
  · rcases hbc with h2 | ⟨h2, _⟩
    · exact Or.inl (h2.trans h1)
    · exact Or.inl (h2 ▸ h1)
  · rcases hbc with h2 | ⟨h2, h2n⟩
    · exact Or.inl (h1 ▸ h2)
    · exact Or.inr ⟨h1.trans h2, listLE_trans _ _ _ h1n h2n⟩

instance : IsTotal Factor factorLE := ⟨keyLE_total _ _⟩

instance : IsTrans Factor factorLE := ⟨keyLE_trans _ _⟩

instance : IsTotal CorrEntry corrLE := ⟨keyLE_total _ _⟩

instance : IsTrans CorrEntry corrLE := ⟨keyLE_trans _ _⟩

instance : IsTotal SegEntry segLE := ⟨keyLE_total _ _⟩

instance : IsTrans SegEntry segLE := ⟨keyLE_trans _ _⟩

/-! ### Lookup helper lemmas -/

theorem lookup_cons_eq (k : String) (v : Factor) (es : List (String × Factor)) :
    List.lookup k ((k, v) :: es) = some v := by
  simp [List.lookup]

theorem lookup_cons_ne (a k : String) (v : Factor) (es : List (String × Factor))
    (h : a ≠ k) : List.lookup a ((k, v) :: es) = List.lookup a es := by
  have hb : (a == k) = false := beq_eq_false_iff_ne.mpr h
  simp [List.lookup, hb]

/-! ### The deduplication loop keeps exactly one, maximal entry per name -/

theorem dedupLoop_spec (l : List Factor) :
    ∀ (seen : List (String × Factor)) (acc : List Factor),
      (∀ f ∈ acc, List.lookup f.factor seen = some f) →
      (∀ n x, List.lookup n seen = some x → x.factor = n ∧ x ∈ acc) →
      ((acc.map Factor.factor).Nodup) →
      ((dedupLoop l seen acc).map Factor.factor).Nodup ∧
      (∀ x ∈ dedupLoop l seen acc, x ∈ acc ∨ x ∈ l) ∧
      (∀ x ∈ dedupLoop l seen acc, ∀ g, (g ∈ acc ∨ g ∈ l) →
        g.factor = x.factor → g.impactScore ≤ x.impactScore) ∧
      (∀ g, (g ∈ acc ∨ g ∈ l) →
        ∃ x ∈ dedupLoop l seen acc, x.factor = g.factor) := by
  induction l with
  | nil =>
    intro seen acc h1 h2 h3
    refine ⟨h3, fun x hx => Or.inl hx, ?_, ?_⟩
    · intro x hx g hg hname
      rcases hg with hg | hg
      · have hgl := h1 g hg
        have hxl := h1 x hx
        rw [hname] at hgl
        have hEq : g = x := Option.some.inj (hgl.symm.trans hxl)
        exact hEq ▸ le_refl _
      · cases hg
    · intro g hg
      rcases hg with hg | hg
      · exact ⟨g, hg, rfl⟩
      · cases hg
  | cons f rest ih =>
    intro seen acc h1 h2 h3
    cases hcase : List.lookup f.factor seen with
    | none =>
      have hred : dedupLoop (f :: rest) seen acc
          = dedupLoop rest ((f.factor, f) :: seen) (acc ++ [f]) := by
        simp only [dedupLoop, hcase]
      have hfn : ∀ x ∈ acc, x.factor ≠ f.factor := by
        intro x hx hx2
        have hl := h1 x hx
        rw [hx2, hcase] at hl
        cases hl
      have hfmap : f.factor ∉ acc.map Factor.factor := by
        intro hmem
        obtain ⟨x, hx, hx2⟩ := List.mem_map.mp hmem
        exact hfn x hx hx2
      have inv1 : ∀ x ∈ acc ++ [f],
          List.lookup x.factor ((f.factor, f) :: seen) = some x := by
        intro x hx
        rcases List.mem_append.mp hx with hx | hx
        · rw [lookup_cons_ne _ _ _ _ (hfn x hx)]
          exact h1 x hx
        · have hx2 : x = f := by simpa using hx
          subst hx2
          exact lookup_cons_eq _ _ _
      have inv2 : ∀ n x, List.lookup n ((f.factor, f) :: seen) = some x →
          x.factor = n ∧ x ∈ acc ++ [f] := by
        intro n x hx
        by_cases hn : n = f.factor
        · subst hn
          rw [lookup_cons_eq] at hx
          have hx2 : f = x := Option.some.inj hx
          subst hx2
          exact ⟨rfl, by simp⟩
        · rw [lookup_cons_ne _ _ _ _ hn] at hx
          obtain ⟨hxf, hxa⟩ := h2 n x hx
          exact ⟨hxf, List.mem_append.mpr (Or.inl hxa)⟩
      have inv3 : ((acc ++ [f]).map Factor.factor).Nodup := by
        rw [List.map_append]
        refine List.Nodup.append h3 (List.nodup_singleton _) ?_
        intro a ha hb
        have hb2 : a = f.factor := by simpa using hb
        exact hfmap (hb2 ▸ ha)
      obtain ⟨N, M, B, C⟩ := ih ((f.factor, f) :: seen) (acc ++ [f]) inv1 inv2 inv3
      rw [hred]
      refine ⟨N, ?_, ?_, ?_⟩
      · intro x hx
        rcases M x hx with hx2 | hx2
        · rcases List.mem_append.mp hx2 with h | h
          · exact Or.inl h
          · have hx3 : x = f := by simpa using h
            exact Or.inr (hx3 ▸ List.mem_cons_self f rest)
        · exact Or.inr (List.mem_cons_of_mem f hx2)
      · intro x hx g hg hname
        apply B x hx g ?_ hname
        rcases hg with hg | hg
        · exact Or.inl (List.mem_append.mpr (Or.inl hg))
        · rcases List.mem_cons.mp hg with hg | hg
          · exact Or.inl (List.mem_append.mpr (Or.inr (by simp [hg])))
          · exact Or.inr hg
      · intro g hg
        apply C g
        rcases hg with hg | hg
        · exact Or.inl (List.mem_append.mpr (Or.inl hg))
        · rcases List.mem_cons.mp hg with hg | hg
          · exact Or.inl (List.mem_append.mpr (Or.inr (by simp [hg])))
          · exact Or.inr hg
    | some g =>
      obtain ⟨hgf, hga⟩ := h2 f.factor g hcase
      by_cases hlt : g.impactScore < f.impactScore
      · have hred : dedupLoop (f :: rest) seen acc
            = dedupLoop rest ((f.factor, f) :: seen) (acc.erase g ++ [f]) := by
          simp only [dedupLoop, hcase, if_pos hlt]
        have haccN : acc.Nodup := h3.of_map
        have hperm : List.Perm acc (g :: acc.erase g) := List.perm_cons_erase hga
        have hmapnd : (Factor.factor g :: (acc.erase g).map Factor.factor).Nodup := by
          have hp := hperm.map Factor.factor
          exact hp.nodup_iff.mp h3
        have hgnot : g.factor ∉ (acc.erase g).map Factor.factor :=
          (List.nodup_cons.mp hmapnd).1
        have herasend : ((acc.erase g).map Factor.factor).Nodup :=
          (List.nodup_cons.mp hmapnd).2
        have hmem_erase : ∀ x, x ∈ acc.erase g ↔ x ≠ g ∧ x ∈ acc := by
          intro x
          exact haccN.mem_erase_iff
        have hxf : ∀ x ∈ acc.erase g, x.factor ≠ f.factor := by
          intro x hx hx2
          apply hgnot
          have hx3 : x.factor = g.factor := by rw [hx2, hgf]
          exact hx3 ▸ List.mem_map_of_mem Factor.factor hx
        have inv1 : ∀ x ∈ acc.erase g ++ [f],
            List.lookup x.factor ((f.factor, f) :: seen) = some x := by
          intro x hx
          rcases List.mem_append.mp hx with hx | hx
          · rw [lookup_cons_ne _ _ _ _ (hxf x hx)]
            exact h1 x ((hmem_erase x).mp hx).2
          · have hx2 : x = f := by simpa using hx
            subst hx2
            exact lookup_cons_eq _ _ _
        have inv2 : ∀ n x, List.lookup n ((f.factor, f) :: seen) = some x →
            x.factor = n ∧ x ∈ acc.erase g ++ [f] := by
          intro n x hx
          by_cases hn : n = f.factor
          · subst hn
            rw [lookup_cons_eq] at hx
            have hx2 : f = x := Option.some.inj hx
            subst hx2
            exact ⟨rfl, by simp⟩
          · rw [lookup_cons_ne _ _ _ _ hn] at hx
            obtain ⟨hxf2, hxa⟩ := h2 n x hx
            have hxg : x ≠ g := by
              intro hxg
              apply hn
              rw [← hxf2, hxg, hgf]
            exact ⟨hxf2, List.mem_append.mpr (Or.inl ((hmem_erase x).mpr ⟨hxg, hxa⟩))⟩
        have inv3 : ((acc.erase g ++ [f]).map Factor.factor).Nodup := by
          rw [List.map_append]
          refine List.Nodup.append herasend (List.nodup_singleton _) ?_
          intro a ha hb
          have hb2 : a = f.factor := by simpa using hb
          obtain ⟨x, hx, hx2⟩ := List.mem_map.mp ha
          exact hxf x hx (hx2.trans hb2)
        obtain ⟨N, M, B, C⟩ := ih ((f.factor, f) :: seen) (acc.erase g ++ [f])
          inv1 inv2 inv3
        rw [hred]
        have hfacc : f ∈ acc.erase g ++ [f] := List.mem_append.mpr (Or.inr (by simp))
        refine ⟨N, ?_, ?_, ?_⟩
        · intro x hx
          rcases M x hx with hx2 | hx2
          · rcases List.mem_append.mp hx2 with h | h
            · exact Or.inl ((hmem_erase x).mp h).2
            · have hx3 : x = f := by simpa using h
              exact Or.inr (hx3 ▸ List.mem_cons_self f rest)
          · exact Or.inr (List.mem_cons_of_mem f hx2)
        · intro x hx g0 hg0 hname
          rcases hg0 with hg0 | hg0
          · by_cases hgg : g0 = g
            · subst hgg
              have hf2 : f.factor = x.factor := by rw [← hname, hgf]
              have hb := B x hx f (Or.inl hfacc) hf2
              exact le_trans (le_of_lt hlt) hb
            · exact B x hx g0
                (Or.inl (List.mem_append.mpr (Or.inl ((hmem_erase g0).mpr ⟨hgg, hg0⟩))))
                hname
          · rcases List.mem_cons.mp hg0 with hg0 | hg0
            · subst hg0
              exact B x hx g0 (Or.inl hfacc) hname
            · exact B x hx g0 (Or.inr hg0) hname
        · intro g0 hg0
          rcases hg0 with hg0 | hg0
          · by_cases hgg : g0 = g
            · subst hgg
              obtain ⟨x, hx, hx2⟩ := C f (Or.inl hfacc)
              exact ⟨x, hx, by rw [hx2, ← hgf]⟩
            · exact C g0
                (Or.inl (List.mem_append.mpr (Or.inl ((hmem_erase g0).mpr ⟨hgg, hg0⟩))))
          · rcases List.mem_cons.mp hg0 with hg0 | hg0
            · subst hg0
              exact C g0 (Or.inl hfacc)
            · exact C g0 (Or.inr hg0)
      · have hred : dedupLoop (f :: rest) seen acc = dedupLoop rest seen acc := by
          simp only [dedupLoop, hcase, if_neg hlt]
        obtain ⟨N, M, B, C⟩ := ih seen acc h1 h2 h3
        rw [hred]
        refine ⟨N, ?_, ?_, ?_⟩
        · intro x hx
          rcases M x hx with h | h
          · exact Or.inl h
          · exact Or.inr (List.mem_cons_of_mem f h)
        · intro x hx g0 hg0 hname
          rcases hg0 with hg0 | hg0
          · exact B x hx g0 (Or.inl hg0) hname
          · rcases List.mem_cons.mp hg0 with hg0 | hg0
            · subst hg0
              have hgx : g.factor = x.factor := by rw [hgf, hname]
              have hb := B x hx g (Or.inl hga) hgx
              exact le_trans (not_lt.mp hlt) hb
            · exact B x hx g0 (Or.inr hg0) hname
        · intro g0 hg0
          rcases hg0 with hg0 | hg0
          · exact C g0 (Or.inl hg0)
          · rcases List.mem_cons.mp hg0 with hg0 | hg0
            · subst hg0
              obtain ⟨x, hx, hx2⟩ := C g (Or.inl hga)
              exact ⟨x, hx, by rw [hx2, hgf]⟩
            · exact C g0 (Or.inr hg0)

theorem dedupFactors_spec (fs : List Factor) :
    ((dedupFactors fs).map Factor.factor).Nodup ∧
    (∀ x ∈ dedupFactors fs, x ∈ fs) ∧
    (∀ x ∈ dedupFactors fs, ∀ g ∈ fs, g.factor = x.factor →
      g.impactScore ≤ x.impactScore) ∧
    (∀ g ∈ fs, ∃ x ∈ dedupFactors fs, x.factor = g.factor) := by
  obtain ⟨N, M, B, C⟩ := dedupLoop_spec fs [] []
    (by intro x hx; cases hx)
    (by intro n x hx; simp [List.lookup] at hx)
    (by simp)
  refine ⟨N, ?_, ?_, ?_⟩
  · intro x hx
    rcases M x hx with h | h
    · cases h
    · exact h
  · intro x hx g hg hname
    exact B x hx g (Or.inr hg) hname
  · intro g hg
    exact C g (Or.inr hg)

theorem rankedFactors_spec (corrs : List CorrEntry) (segs : List SegEntry) :
    List.Sorted factorLE (rankedFactors corrs segs) ∧
    ((rankedFactors corrs segs).map Factor.factor).Nodup ∧
    (∀ x ∈ rankedFactors corrs segs, x ∈ factorsOf corrs segs) ∧
    (∀ x ∈ rankedFactors corrs segs, ∀ g ∈ factorsOf corrs segs,
      g.factor = x.factor → g.impactScore ≤ x.impactScore) ∧
    (∀ g ∈ factorsOf corrs segs,
      ∃ x ∈ rankedFactors corrs segs, x.factor = g.factor) := by
  have hp1 : List.Perm (sortFactors (factorsOf corrs segs)) (factorsOf corrs segs) :=
    List.perm_insertionSort factorLE _
  obtain ⟨N, M, B, C⟩ := dedupFactors_spec (sortFactors (factorsOf corrs segs))
  have hp2 : List.Perm (rankedFactors corrs segs)
      (dedupFactors (sortFactors (factorsOf corrs segs))) :=
    List.perm_insertionSort factorLE _
  refine ⟨List.sorted_insertionSort factorLE _, ?_, ?_, ?_, ?_⟩
  · have hmap := hp2.map Factor.factor
    exact hmap.nodup_iff.mpr N
  · intro x hx
    exact hp1.mem_iff.mp (M x (hp2.mem_iff.mp hx))
  · intro x hx g hg hname
    exact B x (hp2.mem_iff.mp hx) g (hp1.mem_iff.mpr hg) hname
  · intro g hg
    obtain ⟨x, hx, hx2⟩ := C g (hp1.mem_iff.mpr hg)
    exact ⟨x, hp2.mem_iff.mpr hx, hx2⟩

/-- C1: after combining numeric factor entries (scored
`round(abs_correlation * 100, 2)`) and categorical factor entries (scored
`round(relative_impact_pct, 2)`) into `factorsOf`, the ranking pipeline
(sort by descending impact score with ties by ascending name, deduplicate
keeping the higher-scoring entry per name, re-sort with the same key)
produces a list that is sorted by that key, has pairwise-distinct factor
names, keeps per name exactly an entry of maximal impact score among the
combined candidates, covers every candidate name, and whose first 5
entries are exactly `top_factors`. -/
theorem claim_C1 (corrs : List CorrEntry) (segs : List SegEntry) :
    List.Sorted factorLE (rankedFactors corrs segs) ∧
    ((rankedFactors corrs segs).map Factor.factor).Nodup ∧
    (∀ x ∈ rankedFactors corrs segs, x ∈ factorsOf corrs segs ∧
      ∀ g ∈ factorsOf corrs segs, g.factor = x.factor →
        g.impactScore ≤ x.impactScore) ∧
    (∀ g ∈ factorsOf corrs segs,
      ∃ x ∈ rankedFactors corrs segs, x.factor = g.factor) ∧
    topFactorsOf corrs segs = (rankedFactors corrs segs).take 5 := by
  obtain ⟨hs, hn, hm, hb, hc⟩ := rankedFactors_spec corrs segs
  exact ⟨hs, hn, fun x hx => ⟨hm x hx, fun g hg => hb x hx g hg⟩, hc, rfl⟩

/-- C2: with the decision-metric column present, analyze fails with the
clean-or-convert `InvalidMetricError` message exactly when zero cells
coerce or the coerced-cell count over the total row count is strictly
below 0.9, and otherwise it returns a summary (never a partial result:
the error branch carries no summary at all). -/
theorem claim_C2 (pdate : String → Option Int)
    (corrFn : List (ℚ × ℚ) → Option ℚ) (df : DFrame) (metric : String)
    (tc : Col) (htc : targetCol? df metric = some tc) :
    ((compute pdate corrFn df metric = .error invalidMetricMsg) ↔
      (((coerceTarget tc.data).filterMap id).length = 0 ∨
        ((((coerceTarget tc.data).filterMap id).length : ℚ) /
          ((coerceTarget tc.data).length : ℚ) < 9 / 10))) ∧
    (¬ (((coerceTarget tc.data).filterMap id).length = 0 ∨
        ((((coerceTarget tc.data).filterMap id).length : ℚ) /
          ((coerceTarget tc.data).length : ℚ) < 9 / 10)) →
      (compute pdate corrFn df metric).isOk = true) := by
  by_cases hcond : (((coerceTarget tc.data).filterMap id).length = 0 ∨
      ((((coerceTarget tc.data).filterMap id).length : ℚ) /
        ((coerceTarget tc.data).length : ℚ) < 9 / 10))
  · have hc : compute pdate corrFn df metric = .error invalidMetricMsg := by
      simp only [compute, htc, if_pos hcond]
    exact ⟨by rw [hc]; exact ⟨fun _ => hcond, fun _ => rfl⟩, fun h => absurd hcond h⟩
  · have hc : (compute pdate corrFn df metric).isOk = true := by
      simp only [compute, htc, if_neg hcond, Except.isOk, Except.toBool]
    refine ⟨?_, fun _ => hc⟩
    constructor
    · intro herr
      rw [herr] at hc
      cases hc
    · intro h
      exact absurd h hcond

theorem mem_exclList_name (pdate : String → Option Int) (nrows : ℕ)
    (metric : String) (cols : List Col) (e : String × String)
    (he : e ∈ cols.filterMap (fun c => if c.name = metric then none
      else (exclusionReason pdate nrows c).map (fun r => (c.name, r)))) :
    e.1 ∈ cols.map Col.name ∧ e.1 ≠ metric := by
  obtain ⟨c, hc, hbody⟩ := List.mem_filterMap.mp he
  by_cases hm : c.name = metric
  · rw [if_pos hm] at hbody
    cases hbody
  · rw [if_neg hm] at hbody
    obtain ⟨r, _, hr2⟩ := Option.map_eq_some'.mp hbody
    have he1 : e.1 = c.name := by rw [← hr2]
    exact ⟨he1 ▸ List.mem_map_of_mem Col.name hc, he1 ▸ hm⟩

theorem exclList_filter (pdate : String → Option Int) (nrows : ℕ)
    (metric : String) :
    ∀ (cols : List Col), (cols.map Col.name).Nodup →
      ∀ c ∈ cols, c.name ≠ metric →
      ((cols.filterMap (fun d => if d.name = metric then none
          else (exclusionReason pdate nrows d).map (fun r => (d.name, r)))).filter
        (fun e => e.1 == c.name))
        = ((exclusionReason pdate nrows c).map (fun r => (c.name, r))).toList := by
  intro cols
  induction cols with
  | nil =>
    intro _ c hc
    cases hc
  | cons d ds ih =>
    intro hnd c hc hne
    rw [List.map_cons] at hnd
    have hnd2 := List.nodup_cons.mp hnd
    rcases List.mem_cons.mp hc with hcd | hcds
    · subst hcd
      rw [List.filterMap_cons, if_neg hne]
      have htail : ((ds.filterMap (fun d => if d.name = metric then none
          else (exclusionReason pdate nrows d).map (fun r => (d.name, r)))).filter
          (fun e => e.1 == c.name)) = [] := by
        rw [List.filter_eq_nil_iff]
        intro e he hbeq
        have hmem := (mem_exclList_name pdate nrows metric ds e he).1
        have he1 : e.1 = c.name := by simpa using hbeq
        exact hnd2.1 (he1 ▸ hmem)
      cases hres : exclusionReason pdate nrows c with
      | none =>
        simpa using htail
      | some r =>
        simp only [Option.map_some']
        rw [List.filter_cons_of_pos (by simp), htail]
        rfl
    · have hdc : d.name ≠ c.name := by
        intro h
        exact hnd2.1 (h ▸ List.mem_map_of_mem Col.name hcds)
      rw [List.filterMap_cons]
      by_cases hdm : d.name = metric
      · rw [if_pos hdm]
        exact ih hnd2.2 c hcds hne
      · rw [if_neg hdm]
        cases hres : exclusionReason pdate nrows d with
        | none =>
          simpa using ih hnd2.2 c hcds hne
        | some r =>
          simp only [Option.map_some']
          rw [List.filter_cons_of_neg (by simp [hdc]), ih hnd2.2 c hcds hne]

/-- C4: the step-2 exclusion checks run in fixed priority order and stop
at the first match, so each non-target column contributes at most one
entry (with exactly the reason of its first matching check) to
`excluded_columns`; in particular a column whose distinct-non-null
percentage exceeds 80 is excluded as "High uniqueness" regardless of its
name (even one containing "id" or another keyword). -/
theorem claim_C4 (pdate : String → Option Int) (df : DFrame) (metric : String)
    (hwf : df.Wellformed) (c : Col) (hc : c ∈ df.cols) (hne : c.name ≠ metric) :
    ((excludedColumnsOf pdate df metric).filter (fun e => e.1 == c.name))
      = ((exclusionReason pdate df.nrows c).map (fun r => (c.name, r))).toList ∧
    (80 < uniquePct df.nrows c.data →
      exclusionReason pdate df.nrows c = some "High uniqueness") := by
  constructor
  · exact exclList_filter pdate df.nrows metric df.cols hwf.2 c hc hne
  · intro h
    simp [exclusionReason, h]

theorem compute_ok_inv (pdate : String → Option Int)
    (corrFn : List (ℚ × ℚ) → Option ℚ) (df : DFrame) (metric : String)
    (s : Summary) (h : compute pdate corrFn df metric = .ok s) :
    ∃ tc, targetCol? df metric = some tc ∧
      ¬ (((coerceTarget tc.data).filterMap id).length = 0 ∨
        ((((coerceTarget tc.data).filterMap id).length : ℚ) /
          ((coerceTarget tc.data).length : ℚ) < 9 / 10)) ∧
      s = buildSummary pdate corrFn df metric tc := by
  unfold compute at h
  cases htc : targetCol? df metric with
  | none =>
    rw [htc] at h
    cases h
  | some tc =>
    rw [htc] at h
    simp only [] at h
    by_cases hcond : (((coerceTarget tc.data).filterMap id).length = 0 ∨
        ((((coerceTarget tc.data).filterMap id).length : ℚ) /
          ((coerceTarget tc.data).length : ℚ) < 9 / 10))
    · rw [if_pos hcond] at h
      cases h
    · rw [if_neg hcond] at h
      exact ⟨tc, rfl, hcond, (Except.ok.inj h).symm⟩

theorem mem_correlationsOf_inv (pdate : String → Option Int)
    (corrFn : List (ℚ × ℚ) → Option ℚ) (df : DFrame) (metric : String)
    (e : CorrEntry) (he : e ∈ correlationsOf pdate corrFn df metric) :
    ∃ c ∈ df.cols, c.name ≠ metric ∧
      isExcluded pdate df metric c.name = false ∧
      inferColumnType pdate c.data = "numeric" ∧
      ¬ (validPairs (coercedTarget df metric) c.data).length < 10 ∧
      ∃ r, corrFn (validPairs (coercedTarget df metric) c.data) = some r ∧
        e = ⟨c.name, roundTo 4 r, roundTo 4 |r|⟩ := by
  obtain ⟨c, hc, hbody⟩ := List.mem_filterMap.mp he
  by_cases h1 : c.name = metric
  · rw [if_pos h1] at hbody
    cases hbody
  rw [if_neg h1] at hbody
  by_cases h2 : isExcluded pdate df metric c.name = true
  · rw [if_pos h2] at hbody
    cases hbody
  rw [if_neg h2] at hbody
  by_cases h3 : inferColumnType pdate c.data = "numeric"
  · rw [if_pos h3] at hbody
    simp only [] at hbody
    by_cases h4 : (validPairs (coercedTarget df metric) c.data).length < 10
    · rw [if_pos h4] at hbody
      cases hbody
    · rw [if_neg h4] at hbody
      cases hr : corrFn (validPairs (coercedTarget df metric) c.data) with
      | none =>
        rw [hr] at hbody
        cases hbody
      | some r =>
        rw [hr] at hbody
        exact ⟨c, hc, h1, Bool.not_eq_true _ ▸ h2, h3, h4, r, hr,
          (Option.some.inj hbody).symm⟩
  · rw [if_neg h3] at hbody
    cases hbody

theorem correlationsOf_intro (pdate : String → Option Int)
    (corrFn : List (ℚ × ℚ) → Option ℚ) (df : DFrame) (metric : String)
    (c : Col) (hc : c ∈ df.cols) (h1 : c.name ≠ metric)
    (h2 : isExcluded pdate df metric c.name = false)
    (h3 : inferColumnType pdate c.data = "numeric")
    (h4 : ¬ (validPairs (coercedTarget df metric) c.data).length < 10)
    (r : ℚ) (hr : corrFn (validPairs (coercedTarget df metric) c.data) = some r) :
    (⟨c.name, roundTo 4 r, roundTo 4 |r|⟩ : CorrEntry)
      ∈ correlationsOf pdate corrFn df metric := by
  refine List.mem_filterMap.mpr ⟨c, hc, ?_⟩
  rw [if_neg h1, if_neg (by rw [h2]; exact Bool.false_ne_true), if_pos h3]
  simp only []
  rw [if_neg h4, hr]

theorem mem_segmentImpactsOf_inv (pdate : String → Option Int) (df : DFrame)
    (metric : String) (e : SegEntry) (he : e ∈ segmentImpactsOf pdate df metric) :
    ∃ c ∈ df.cols, c.name ≠ metric ∧
      isExcluded pdate df metric c.name = false ∧
      inferColumnType pdate c.data = "categorical" ∧
      ∃ cs, c.data = .strs cs ∧
      ∃ m rest, (groupKeys (coercedTarget df metric) cs).filterMap
          (fun v => meanQ (groupVals (coercedTarget df metric) cs v)) = m :: rest ∧
        ¬ (m :: rest).length < 2 ∧
        e = ⟨c.name, roundTo 4 (rest.foldl max m - rest.foldl min m),
          roundTo 2 (if (meanQ ((coercedTarget df metric).filterMap id)).getD 0 ≠ 0
            then |(rest.foldl max m - rest.foldl min m) /
              (meanQ ((coercedTarget df metric).filterMap id)).getD 0| * 100
            else |rest.foldl max m - rest.foldl min m|)⟩ := by
  obtain ⟨c, hc, hbody⟩ := List.mem_filterMap.mp he
  by_cases h1 : c.name = metric
  · rw [if_pos h1] at hbody
    cases hbody
  rw [if_neg h1] at hbody
  by_cases h2 : isExcluded pdate df metric c.name = true
  · rw [if_pos h2] at hbody
    cases hbody
  rw [if_neg h2] at hbody
  by_cases h3 : inferColumnType pdate c.data = "categorical"
  · rw [if_pos h3] at hbody
    cases hdata : c.data with
    | nums cs =>
      rw [hdata] at hbody
      cases hbody
    | strs cs =>
      rw [hdata] at hbody
      simp only [] at hbody
      cases hmeans : (groupKeys (coercedTarget df metric) cs).filterMap
          (fun v => meanQ (groupVals (coercedTarget df metric) cs v)) with
      | nil =>
        rw [hmeans] at hbody
        cases hbody
      | cons m rest =>
        rw [hmeans] at hbody
        simp only [] at hbody
        by_cases h4 : (m :: rest).length < 2
        · rw [if_pos h4] at hbody
          cases hbody
        · rw [if_neg h4] at hbody
          exact ⟨c, hc, h1, Bool.not_eq_true _ ▸ h2, h3, cs, hdata, m, rest,
            hmeans, h4, (Option.some.inj hbody).symm⟩
  · rw [if_neg h3] at hbody
    cases hbody

theorem segmentImpactsOf_intro (pdate : String → Option Int) (df : DFrame)
    (metric : String) (c : Col) (hc : c ∈ df.cols) (h1 : c.name ≠ metric)
    (h2 : isExcluded pdate df metric c.name = false)
    (h3 : inferColumnType pdate c.data = "categorical")
    (cs : List (Option String)) (hdata : c.data = .strs cs)
    (m : ℚ) (rest : List ℚ)
    (hmeans : (groupKeys (coercedTarget df metric) cs).filterMap
      (fun v => meanQ (groupVals (coercedTarget df metric) cs v)) = m :: rest)
    (h4 : ¬ (m :: rest).length < 2) :
    (⟨c.name, roundTo 4 (rest.foldl max m - rest.foldl min m),
      roundTo 2 (if (meanQ ((coercedTarget df metric).filterMap id)).getD 0 ≠ 0
        then |(rest.foldl max m - rest.foldl min m) /
          (meanQ ((coercedTarget df metric).filterMap id)).getD 0| * 100
        else |rest.foldl max m - rest.foldl min m|)⟩ : SegEntry)
      ∈ segmentImpactsOf pdate df metric := by
  refine List.mem_filterMap.mpr ⟨c, hc, ?_⟩
  rw [if_neg h1, if_neg (by rw [h2]; exact Bool.false_ne_true), if_pos h3, hdata]
  simp only []
  rw [hmeans]
  simp only []
  rw [if_neg h4]

theorem coerceTarget_length (d : ColData) :
    (coerceTarget d).length = d.size := by
  cases d with
  | nums cs => rfl
  | strs cs => simp [coerceTarget, ColData.size]

theorem buildSummary_fields (pdate : String → Option Int)
    (corrFn : List (ℚ × ℚ) → Option ℚ) (df : DFrame) (metric : String)
    (tc : Col) :
    (buildSummary pdate corrFn df metric tc).totalRows = df.nrows ∧
    (buildSummary pdate corrFn df metric tc).validRows
      = ((coerceTarget tc.data).filterMap id).length ∧
    (buildSummary pdate corrFn df metric tc).topFactors
      = topFactorsOf (correlationsOf pdate corrFn df metric)
          (segmentImpactsOf pdate df metric) ∧
    (buildSummary pdate corrFn df metric tc).allCorrelations
      = ((correlationsOf pdate corrFn df metric).take 10).insertionSort corrLE ∧
    (buildSummary pdate corrFn df metric tc).allSegmentImpacts
      = ((segmentImpactsOf pdate df metric).take 10).insertionSort segLE ∧
    (buildSummary pdate corrFn df metric tc).excludedColumns
      = excludedColumnsOf pdate df metric :=
  ⟨rfl, rfl, rfl, rfl, rfl, rfl⟩

theorem roundTo_mono (d : ℕ) {x y : ℚ} (h : x ≤ y) :
    roundTo d x ≤ roundTo d y := by
  unfold roundTo
  have h1 : round (x * 10 ^ d) ≤ round (y * 10 ^ d) := by
    rw [round_eq, round_eq]
    apply Int.floor_mono
    have h2 : x * 10 ^ d ≤ y * 10 ^ d :=
      mul_le_mul_of_nonneg_right h (by positivity)
    linarith
  have h3 : ((round (x * 10 ^ d) : ℤ) : ℚ) ≤ ((round (y * 10 ^ d) : ℤ) : ℚ) := by
    exact_mod_cast h1
  exact (div_le_div_iff_of_pos_right (by positivity)).mpr h3

theorem roundTo_ten : roundTo 2 (10 : ℚ) = 10 := by
  unfold roundTo
  have h : (10 : ℚ) * 10 ^ 2 = ((1000 : ℤ) : ℚ) := by norm_num
  rw [h, round_intCast]
  norm_num

theorem mem_factorsOf_inv (corrs : List CorrEntry) (segs : List SegEntry)
    (x : Factor) (hx : x ∈ factorsOf corrs segs) :
    (∃ e ∈ corrs, x.factor = e.factor) ∨ (∃ e ∈ segs, x.factor = e.factor) := by
  rcases List.mem_append.mp hx with h | h
  · obtain ⟨e, he, hx2⟩ := List.mem_map.mp h
    exact Or.inl ⟨e, he, by rw [← hx2]⟩
  · obtain ⟨e, he, hx2⟩ := List.mem_map.mp h
    exact Or.inr ⟨e, he, by rw [← hx2]⟩

/-- C9: on every successful analysis, the decision-metric column itself
never appears in `top_factors`, `all_correlations`, `all_segment_impacts`
or `excluded_columns` — every stage skips the target column first. -/
theorem claim_C9 (pdate : String → Option Int)
    (corrFn : List (ℚ × ℚ) → Option ℚ) (df : DFrame) (metric : String)
    (s : Summary) (h : compute pdate corrFn df metric = .ok s) :
    metric ∉ s.topFactors.map Factor.factor ∧
    metric ∉ s.allCorrelations.map CorrEntry.factor ∧
    metric ∉ s.allSegmentImpacts.map SegEntry.factor ∧
    metric ∉ s.excludedColumns.map Prod.fst := by
  obtain ⟨tc, htc, hcond, hs⟩ := compute_ok_inv pdate corrFn df metric s h
  obtain ⟨_, _, htop, hac, has, hexc⟩ :=
    buildSummary_fields pdate corrFn df metric tc
  subst hs
  refine ⟨?_, ?_, ?_, ?_⟩
  · rw [htop]
    intro hmem
    obtain ⟨x, hx, hxf⟩ := List.mem_map.mp hmem
    have hx2 : x ∈ rankedFactors (correlationsOf pdate corrFn df metric)
        (segmentImpactsOf pdate df metric) := List.take_subset 5 _ hx
    have hx3 := (rankedFactors_spec _ _).2.2.1 x hx2
    rcases mem_factorsOf_inv _ _ x hx3 with ⟨e, he, hxe⟩ | ⟨e, he, hxe⟩
    · obtain ⟨c, _, hne, _, _, _, r, _, he2⟩ :=
        mem_correlationsOf_inv pdate corrFn df metric e he
      apply hne
      have hef : e.factor = c.name := by rw [he2]
      rw [← hef, ← hxe]
      exact hxf
    · obtain ⟨c, _, hne, _, _, _, _, _, _, _, _, he2⟩ :=
        mem_segmentImpactsOf_inv pdate df metric e he
      apply hne
      have hef : e.factor = c.name := by rw [he2]
      rw [← hef, ← hxe]
      exact hxf
  · rw [hac]
    intro hmem
    obtain ⟨e, he, hef⟩ := List.mem_map.mp hmem
    have he2 : e ∈ correlationsOf pdate corrFn df metric :=
      List.take_subset 10 _ ((List.perm_insertionSort corrLE _).mem_iff.mp he)
    obtain ⟨c, _, hne, _, _, _, r, _, he3⟩ :=
      mem_correlationsOf_inv pdate corrFn df metric e he2
    apply hne
    have hef2 : e.factor = c.name := by rw [he3]
    rw [← hef2]
    exact hef
  · rw [has]
    intro hmem
    obtain ⟨e, he, hef⟩ := List.mem_map.mp hmem
    have he2 : e ∈ segmentImpactsOf pdate df metric :=
      List.take_subset 10 _ ((List.perm_insertionSort segLE _).mem_iff.mp he)
    obtain ⟨c, _, hne, _, _, _, _, _, _, _, _, he3⟩ :=
      mem_segmentImpactsOf_inv pdate df metric e he2
    apply hne
    have hef2 : e.factor = c.name := by rw [he3]
    rw [← hef2]
    exact hef
  · rw [hexc]
    intro hmem
    obtain ⟨e, he, hef⟩ := List.mem_map.mp hmem
    exact (mem_exclList_name pdate df.nrows metric df.cols e he).2 hef

/-- C10: whenever analyze returns a summary, the frame has at least one
row, at least one valid row, at least 90% of rows valid, and a missing
percentage of at most 10; and a zero-row frame that declares the target
column always fails with the metric-validation error, because zero cells
coerce. -/
theorem claim_C10 (pdate : String → Option Int)
    (corrFn : List (ℚ × ℚ) → Option ℚ) (df : DFrame) (metric : String)
    (s : Summary) (hwf : df.Wellformed)
    (h : compute pdate corrFn df metric = .ok s) :
    (1 ≤ s.totalRows ∧ 1 ≤ s.validRows ∧
      (9 : ℚ) / 10 * (s.totalRows : ℚ) ≤ (s.validRows : ℚ) ∧
      s.missingPercentage ≤ 10) ∧
    (∀ (df2 : DFrame) (metric2 : String) (tc2 : Col), df2.Wellformed →
      df2.nrows = 0 → targetCol? df2 metric2 = some tc2 →
      compute pdate corrFn df2 metric2 = .error invalidMetricMsg) := by
  constructor
  · obtain ⟨tc, htc, hcond, hs⟩ := compute_ok_inv pdate corrFn df metric s h
    push_neg at hcond
    obtain ⟨hne0, hratio⟩ := hcond
    have htcmem : tc ∈ df.cols := by
      have := htc
      unfold targetCol? at this
      exact List.mem_of_find?_eq_some this
    have hlen : (coerceTarget tc.data).length = df.nrows := by
      rw [coerceTarget_length]
      exact hwf.1 tc htcmem
    have hvalid1 : 1 ≤ ((coerceTarget tc.data).filterMap id).length :=
      Nat.one_le_iff_ne_zero.mpr hne0
    have hvle : ((coerceTarget tc.data).filterMap id).length
        ≤ (coerceTarget tc.data).length := List.length_filterMap_le _ _
    have hrows1 : 1 ≤ df.nrows := hlen ▸ le_trans hvalid1 hvle
    have hpos : (0 : ℚ) < (df.nrows : ℚ) := by
      exact_mod_cast Nat.lt_of_lt_of_le Nat.zero_lt_one hrows1
    have hratio2 : (9 : ℚ) / 10 * (df.nrows : ℚ)
        ≤ (((coerceTarget tc.data).filterMap id).length : ℚ) := by
      rw [hlen] at hratio
      have h9 : (9 : ℚ) / 10
          ≤ (((coerceTarget tc.data).filterMap id).length : ℚ) / (df.nrows : ℚ) :=
        hratio
      calc (9 : ℚ) / 10 * (df.nrows : ℚ)
          ≤ ((((coerceTarget tc.data).filterMap id).length : ℚ) / (df.nrows : ℚ))
            * (df.nrows : ℚ) := mul_le_mul_of_nonneg_right h9 (le_of_lt hpos)
        _ = (((coerceTarget tc.data).filterMap id).length : ℚ) :=
            div_mul_cancel₀ _ (ne_of_gt hpos)
    have hsT : s.totalRows = df.nrows := by rw [hs]; rfl
    have hsV : s.validRows = ((coerceTarget tc.data).filterMap id).length := by
      rw [hs]; rfl
    refine ⟨by rw [hsT]; exact hrows1, by rw [hsV]; exact hvalid1,
      by rw [hsT, hsV]; exact hratio2, ?_⟩
    have hsM : s.missingPercentage = if 0 < df.nrows then
        roundTo 2 (((df.nrows : ℚ) - (((coerceTarget tc.data).filterMap id).length : ℚ))
          / (df.nrows : ℚ) * 100) else 0 := by
      rw [hs]; rfl
    rw [hsM, if_pos (Nat.lt_of_lt_of_le Nat.zero_lt_one hrows1)]
    have hx : ((df.nrows : ℚ) - (((coerceTarget tc.data).filterMap id).length : ℚ))
        / (df.nrows : ℚ) * 100 ≤ 10 := by
      rw [div_mul_eq_mul_div, div_le_iff₀ hpos]
      nlinarith [hratio2]
    calc roundTo 2 (((df.nrows : ℚ) - (((coerceTarget tc.data).filterMap id).length : ℚ))
          / (df.nrows : ℚ) * 100) ≤ roundTo 2 10 := roundTo_mono 2 hx
      _ = 10 := roundTo_ten
  · intro df2 metric2 tc2 hwf2 h0 htc2
    have htcmem : tc2 ∈ df2.cols := by
      have := htc2
      unfold targetCol? at this
      exact List.mem_of_find?_eq_some this
    have hlen : (coerceTarget tc2.data).length = 0 := by
      rw [coerceTarget_length, hwf2.1 tc2 htcmem, h0]
    have hnil : coerceTarget tc2.data = [] := List.length_eq_zero.mp hlen
    unfold compute
    rw [htc2]
    simp only []
    rw [if_pos (Or.inl (by rw [hnil]; rfl))]

/-- C3 (amended): in every successful analyze result, `all_correlations`
is the FIRST 10 correlation entries in dataset column order, re-sorted by
descending absolute correlation with ties broken by ascending factor
name, and `all_segment_impacts` is the first 10 segment entries in column
order re-sorted by descending relative impact then ascending name; both
outputs are sorted by those keys. -/
theorem claim_C3_amended (pdate : String → Option Int)
    (corrFn : List (ℚ × ℚ) → Option ℚ) (df : DFrame) (metric : String)
    (s : Summary) (h : compute pdate corrFn df metric = .ok s) :
    s.allCorrelations
      = ((correlationsOf pdate corrFn df metric).take 10).insertionSort corrLE ∧
    List.Sorted corrLE s.allCorrelations ∧
    s.allSegmentImpacts
      = ((segmentImpactsOf pdate df metric).take 10).insertionSort segLE ∧
    List.Sorted segLE s.allSegmentImpacts := by
  obtain ⟨tc, htc, hcond, hs⟩ := compute_ok_inv pdate corrFn df metric s h
  subst hs
  refine ⟨rfl, ?_, rfl, ?_⟩
  · exact List.sorted_insertionSort corrLE _
  · exact List.sorted_insertionSort segLE _

theorem nodup_col_eq (df : DFrame) (hwf : df.Wellformed) (c c2 : Col)
    (hc : c ∈ df.cols) (hc2 : c2 ∈ df.cols) (hname : c2.name = c.name) :
    c2 = c :=
  List.inj_on_of_nodup_map hwf.2 hc2 hc hname

/-- C6 (amended): a non-excluded numeric-typed factor column with fewer
than 10 valid pairs is silently dropped — absent from `top_factors`,
`all_correlations` and `excluded_columns` of any successful summary, with
no error contributed; with at least 10 valid pairs and a well-defined
Pearson correlation the factor appears in the step-3 correlations list,
and in `all_correlations` whenever at most 10 numeric factors produce
correlation entries (the source keeps the first 10 entries in column
order, so later columns can be crowded out — see the counterexample). -/
theorem claim_C6_amended (pdate : String → Option Int)
    (corrFn : List (ℚ × ℚ) → Option ℚ) (df : DFrame) (metric : String)
    (hwf : df.Wellformed) (c : Col) (hc : c ∈ df.cols)
    (hne : c.name ≠ metric)
    (hnex : isExcluded pdate df metric c.name = false)
    (hnum : inferColumnType pdate c.data = "numeric") :
    ((validPairs (coercedTarget df metric) c.data).length < 10 →
      ∀ s, compute pdate corrFn df metric = .ok s →
        c.name ∉ s.topFactors.map Factor.factor ∧
        c.name ∉ s.allCorrelations.map CorrEntry.factor ∧
        c.name ∉ s.excludedColumns.map Prod.fst) ∧
    (∀ r, corrFn (validPairs (coercedTarget df metric) c.data) = some r →
      ¬ (validPairs (coercedTarget df metric) c.data).length < 10 →
      (⟨c.name, roundTo 4 r, roundTo 4 |r|⟩ : CorrEntry)
        ∈ correlationsOf pdate corrFn df metric ∧
      ((correlationsOf pdate corrFn df metric).length ≤ 10 →
        (⟨c.name, roundTo 4 r, roundTo 4 |r|⟩ : CorrEntry)
          ∈ ((correlationsOf pdate corrFn df metric).take 10).insertionSort
              corrLE)) := by
  have hnotcorr : (validPairs (coercedTarget df metric) c.data).length < 10 →
      ∀ e ∈ correlationsOf pdate corrFn df metric, e.factor ≠ c.name := by
    intro hdrop e he hef
    obtain ⟨c2, hc2, _, _, hnum2, hp2, r, _, he2⟩ :=
      mem_correlationsOf_inv pdate corrFn df metric e he
    have hname : c2.name = c.name := by rw [← hef, he2]
    have hcc : c2 = c := nodup_col_eq df hwf c c2 hc hc2 hname
    rw [hcc] at hp2
    exact hp2 hdrop
  have hnotseg : ∀ e ∈ segmentImpactsOf pdate df metric, e.factor ≠ c.name := by
    intro e he hef
    obtain ⟨c2, hc2, _, _, hcat2, _, _, _, _, _, _, he2⟩ :=
      mem_segmentImpactsOf_inv pdate df metric e he
    have hname : c2.name = c.name := by rw [← hef, he2]
    have hcc : c2 = c := nodup_col_eq df hwf c c2 hc hc2 hname
    rw [hcc, hnum] at hcat2
    exact (by decide : ¬ ("numeric" : String) = "categorical") hcat2
  constructor
  · intro hdrop s hok
    obtain ⟨tc, htc, hcond, hs⟩ := compute_ok_inv pdate corrFn df metric s hok
    subst hs
    refine ⟨?_, ?_, ?_⟩
    · intro hmem
      obtain ⟨x, hx, hxf⟩ := List.mem_map.mp hmem
      have hx2 : x ∈ rankedFactors (correlationsOf pdate corrFn df metric)
          (segmentImpactsOf pdate df metric) := List.take_subset 5 _ hx
      have hx3 := (rankedFactors_spec _ _).2.2.1 x hx2
      rcases mem_factorsOf_inv _ _ x hx3 with ⟨e, he, hxe⟩ | ⟨e, he, hxe⟩
      · exact hnotcorr hdrop e he (by rw [← hxe, hxf])
      · exact hnotseg e he (by rw [← hxe, hxf])
    · intro hmem
      obtain ⟨e, he, hef⟩ := List.mem_map.mp hmem
      have he2 : e ∈ correlationsOf pdate corrFn df metric :=
        List.take_subset 10 _ ((List.perm_insertionSort corrLE _).mem_iff.mp he)
      exact hnotcorr hdrop e he2 hef
    · intro hmem
      obtain ⟨e, he, hef⟩ := List.mem_map.mp hmem
      have hany := hnex
      unfold isExcluded at hany
      rw [List.any_eq_false] at hany
      exact hany e he (by simp [hef])
  · intro r hr hlen
    have hmem := correlationsOf_intro pdate corrFn df metric c hc hne hnex
      hnum hlen r hr
    refine ⟨hmem, fun hle => ?_⟩
    rw [List.take_of_length_le hle]
    exact (List.perm_insertionSort corrLE _).mem_iff.mpr hmem

/-- C7: a retained categorical factor groups the target-valid rows by the
distinct values of the column (groups with no well-defined target mean
are discarded by construction), is dropped when fewer than 2 group means
remain, and otherwise carries `mean_difference = round(max - min, 4)` and
an impact score of `round(.., 2)` of `|max - min| / |overall mean| * 100`
when the overall target mean is nonzero and of the raw absolute
difference `|max - min|` when it is zero (impact scores are rounded to 2
decimals per spec step 7). -/
theorem claim_C7 (pdate : String → Option Int) (df : DFrame) (metric : String)
    (hwf : df.Wellformed) (c : Col) (hc : c ∈ df.cols) (hne : c.name ≠ metric)
    (hnex : isExcluded pdate df metric c.name = false)
    (cs : List (Option String)) (hdata : c.data = .strs cs)
    (hcat : inferColumnType pdate c.data = "categorical") :
    (((groupKeys (coercedTarget df metric) cs).filterMap
        (fun v => meanQ (groupVals (coercedTarget df metric) cs v))).length < 2 →
      c.name ∉ (segmentImpactsOf pdate df metric).map SegEntry.factor) ∧
    (∀ m rest, (groupKeys (coercedTarget df metric) cs).filterMap
        (fun v => meanQ (groupVals (coercedTarget df metric) cs v)) = m :: rest →
      ¬ (m :: rest).length < 2 →
      (∃ e ∈ segmentImpactsOf pdate df metric, e.factor = c.name) ∧
      (∀ e ∈ segmentImpactsOf pdate df metric, e.factor = c.name →
        e.meanDifference = roundTo 4 (rest.foldl max m - rest.foldl min m) ∧
        e.relativeImpactPct = roundTo 2
          (if (meanQ ((coercedTarget df metric).filterMap id)).getD 0 ≠ 0
            then |rest.foldl max m - rest.foldl min m|
              / |(meanQ ((coercedTarget df metric).filterMap id)).getD 0| * 100
            else |rest.foldl max m - rest.foldl min m|))) := by
  have hinv2 : ∀ e ∈ segmentImpactsOf pdate df metric, e.factor = c.name →
      ∃ m2 rest2, (groupKeys (coercedTarget df metric) cs).filterMap
          (fun v => meanQ (groupVals (coercedTarget df metric) cs v))
            = m2 :: rest2 ∧
        ¬ (m2 :: rest2).length < 2 ∧
        e = ⟨c.name, roundTo 4 (rest2.foldl max m2 - rest2.foldl min m2),
          roundTo 2 (if (meanQ ((coercedTarget df metric).filterMap id)).getD 0 ≠ 0
            then |(rest2.foldl max m2 - rest2.foldl min m2) /
              (meanQ ((coercedTarget df metric).filterMap id)).getD 0| * 100
            else |rest2.foldl max m2 - rest2.foldl min m2|)⟩ := by
    intro e he hef
    obtain ⟨c2, hc2, _, _, _, cs2, hdata2, m2, rest2, hmeans2, hlen2, he2⟩ :=
      mem_segmentImpactsOf_inv pdate df metric e he
    have hname : c2.name = c.name := by rw [← hef, he2]
    have hcc : c2 = c := nodup_col_eq df hwf c c2 hc hc2 hname
    rw [hcc, hdata] at hdata2
    have hcs : cs = cs2 := ColData.strs.inj hdata2
    rw [← hcs] at hmeans2
    exact ⟨m2, rest2, hmeans2, hlen2, by rw [he2, hname]⟩
  constructor
  · intro hlt hmem
    obtain ⟨e, he, hef⟩ := List.mem_map.mp hmem
    obtain ⟨m2, rest2, hmeans2, hlen2, _⟩ := hinv2 e he hef
    rw [hmeans2] at hlt
    exact hlen2 hlt
  · intro m rest hmeans hlen
    constructor
    · exact ⟨_, segmentImpactsOf_intro pdate df metric c hc hne hnex hcat
        cs hdata m rest hmeans hlen, rfl⟩
    · intro e he hef
      obtain ⟨m2, rest2, hmeans2, _, he2⟩ := hinv2 e he hef
      rw [hmeans] at hmeans2
      obtain ⟨hm, hrest⟩ := List.cons.inj hmeans2
      subst hm
      subst hrest
      have habs : (if (meanQ ((coercedTarget df metric).filterMap id)).getD 0 ≠ 0
          then |(rest.foldl max m - rest.foldl min m) /
            (meanQ ((coercedTarget df metric).filterMap id)).getD 0| * 100
          else |rest.foldl max m - rest.foldl min m|)
          = (if (meanQ ((coercedTarget df metric).filterMap id)).getD 0 ≠ 0
          then |rest.foldl max m - rest.foldl min m|
            / |(meanQ ((coercedTarget df metric).filterMap id)).getD 0| * 100
          else |rest.foldl max m - rest.foldl min m|) := by
        by_cases ho : (meanQ ((coercedTarget df metric).filterMap id)).getD 0 ≠ 0
        · rw [if_pos ho, if_pos ho, abs_div]
        · rw [if_neg ho, if_neg ho]
      rw [he2]
      exact ⟨rfl, by rw [← habs]⟩

theorem quantileQ_ne_nil (l : List ℚ) (hl : l ≠ []) (q : ℚ) :
    ∃ x, quantileQ l q = some x := by
  have hperm := List.perm_insertionSort (fun a b : ℚ => a ≤ b) l
  have hs : (l.insertionSort (· ≤ ·)).isEmpty = false := by
    cases hsort : l.insertionSort (· ≤ ·) with
    | nil =>
      exfalso
      apply hl
      rw [hsort] at hperm
      exact hperm.symm.eq_nil
    | cons a as => rfl
  unfold quantileQ
  simp only []
  rw [if_neg (by rw [hs]; exact Bool.false_ne_true)]
  exact ⟨_, rfl⟩

/-- C8: in every successful analyze result, `outlier_count` counts (once
per occurrence) the target-valid values strictly outside
`[Q1 - 1.5 * IQR, Q3 + 1.5 * IQR]` with `Q1`/`Q3` the interpolated
25th/75th percentiles and `IQR = Q3 - Q1`, and `outlier_percentage` is
`outlier_count / valid_rows * 100` rounded to 2 decimals. -/
theorem claim_C8 (pdate : String → Option Int)
    (corrFn : List (ℚ × ℚ) → Option ℚ) (df : DFrame) (metric : String)
    (s : Summary) (h : compute pdate corrFn df metric = .ok s) :
    ∃ q1 q3,
      quantileQ ((coercedTarget df metric).filterMap id) (1 / 4) = some q1 ∧
      quantileQ ((coercedTarget df metric).filterMap id) (3 / 4) = some q3 ∧
      s.outlierCount = ((coercedTarget df metric).filterMap id).countP
        (fun v => decide (v < q1 - 3 / 2 * (q3 - q1))
          || decide (q3 + 3 / 2 * (q3 - q1) < v)) ∧
      s.outlierPercentage
        = roundTo 2 ((s.outlierCount : ℚ) / (s.validRows : ℚ) * 100) := by
  obtain ⟨tc, htc, hcond, hs⟩ := compute_ok_inv pdate corrFn df metric s h
  push_neg at hcond
  have hne0 := hcond.1
  have hct : coercedTarget df metric = coerceTarget tc.data := by
    unfold coercedTarget
    rw [htc]
  have hvne : (coerceTarget tc.data).filterMap id ≠ [] := by
    intro hnil
    exact hne0 (by rw [hnil]; rfl)
  obtain ⟨q1, hq1⟩ := quantileQ_ne_nil ((coerceTarget tc.data).filterMap id)
    hvne (1 / 4)
  obtain ⟨q3, hq3⟩ := quantileQ_ne_nil ((coerceTarget tc.data).filterMap id)
    hvne (3 / 4)
  have hoc : s.outlierCount
      = outlierCountOf ((coerceTarget tc.data).filterMap id) := by
    rw [hs]; rfl
  have hsV : s.validRows = ((coerceTarget tc.data).filterMap id).length := by
    rw [hs]; rfl
  refine ⟨q1, q3, by rw [hct]; exact hq1, by rw [hct]; exact hq3, ?_, ?_⟩
  · rw [hoc, hct]
    unfold outlierCountOf
    rw [hq1, hq3]
  · have hopc : s.outlierPercentage = if 0 < ((coerceTarget tc.data).filterMap id).length
        then roundTo 2
          ((outlierCountOf ((coerceTarget tc.data).filterMap id) : ℚ) /
            (((coerceTarget tc.data).filterMap id).length : ℚ) * 100)
        else 0 := by
      rw [hs]; rfl
    rw [hopc, if_pos (Nat.pos_of_ne_zero hne0), hoc, hsV]

/-- C5: a string-typed target is whitespace-trimmed and the literal
placeholder tokens are normalized to missing before numeric coercion, so
the six-cell example column coerces to exactly the values 5 and 10 with
2 valid rows. -/
theorem claim_C5 :
    coerceTarget (.strs [some " 5 ", some "", some "nan", some "None",
      some "null", some "10"]) = [some 5, none, none, none, none, some 10] ∧
    ((coerceTarget (.strs [some " 5 ", some "", some "nan", some "None",
      some "null", some "10"])).filterMap id).length = 2 := by
  decide

/-! ### Concrete runs: witnesses and counterexamples

The core `Rat` operations are `@[irreducible]` in Batteries; they are
made semireducible locally so that concrete runs evaluate. -/

section ConcreteRuns

attribute [local semireducible] Rat.add Rat.mul Rat.inv Rat.sub

set_option maxRecDepth 8000

theorem claim_C2_w :
    compute pd0 pearson df89 "t" = Except.error invalidMetricMsg ∧
    (compute pd0 pearson df90 "t").isOk = true := by
  constructor
  · exact (claim_C2 pd0 pearson df89 "t"
      ⟨"t", .nums (List.replicate 89 (some 1) ++ List.replicate 11 none)⟩
      rfl).1.mpr (by decide)
  · exact (claim_C2 pd0 pearson df90 "t"
      ⟨"t", .nums (List.replicate 90 (some 1) ++ List.replicate 10 none)⟩
      rfl).2 (by decide)

/-- C3 counterexample: on `dfBig` the analysis succeeds, the factor
`"a"` has the maximal sort key (|correlation| = 1 like all factors, and
the lexicographically smallest name), so the top 10 by descending
absolute correlation with ascending-name ties contain `"a"` — yet the
returned `all_correlations` are the first 10 entries in column order,
which omit `"a"`.  This refutes the claim that `all_correlations` is the
top 10 selected by the sort key. -/
theorem claim_C3_counterexample :
    compute pd0 pearson dfBig "t" = Except.ok (sOf dfBig) ∧
    (sOf dfBig).allCorrelations.map CorrEntry.factor
      = ["b01", "b02", "b03", "b04", "b05", "b06", "b07", "b08", "b09", "b10"] ∧
    (((correlationsOf pd0 pearson dfBig "t").insertionSort corrLE).take
        10).map CorrEntry.factor
      = ["a", "b01", "b02", "b03", "b04", "b05", "b06", "b07", "b08", "b09"] :=
  ⟨rfl, by decide, by decide⟩

theorem claim_C3_w :
    (sOf dfBig).allCorrelations
      = ((correlationsOf pd0 pearson dfBig "t").take 10).insertionSort corrLE ∧
    List.Sorted corrLE (sOf dfBig).allCorrelations ∧
    (sOf dfBig).allSegmentImpacts
      = ((segmentImpactsOf pd0 dfBig "t").take 10).insertionSort segLE ∧
    List.Sorted segLE (sOf dfBig).allSegmentImpacts :=
  claim_C3_amended pd0 pearson dfBig "t" (sOf dfBig) rfl

theorem claim_C4_w :
    ((excludedColumnsOf pd0 dfId "t").filter (fun e => e.1 == "user_id"))
      = [("user_id", "High uniqueness")] ∧
    exclusionReason pd0 dfId.nrows
      ⟨"user_id", .strs [some "u1", some "u2", some "u3", some "u4", some "u5"]⟩
      = some "High uniqueness" := by
  obtain ⟨h1, h2⟩ := claim_C4 pd0 dfId "t" ⟨by decide, by decide⟩
    ⟨"user_id", .strs [some "u1", some "u2", some "u3", some "u4", some "u5"]⟩
    (by decide) (by decide)
  have h3 := h2 (by decide)
  refine ⟨?_, h3⟩
  rw [h1, h3]
  rfl

/-- C6 counterexample: on `dfBig` the column `"a"` is numeric-typed, not
excluded, has 12 ≥ 10 valid pairs and a well-defined Pearson correlation
(exactly 1), and the analysis succeeds — yet `"a"` is absent from
`all_correlations`, because ten other factor columns precede it in
column order and the source slices `correlations[:10]` before sorting.
This refutes the claim that such a factor always appears in
`all_correlations`. -/
theorem claim_C6_counterexample :
    isExcluded pd0 dfBig "t" "a" = false ∧
    inferColumnType pd0 (numsOf t12) = "numeric" ∧
    ¬ (validPairs (coercedTarget dfBig "t") (numsOf t12)).length < 10 ∧
    pearson (validPairs (coercedTarget dfBig "t") (numsOf t12)) = some 1 ∧
    compute pd0 pearson dfBig "t" = Except.ok (sOf dfBig) ∧
    "a" ∉ (sOf dfBig).allCorrelations.map CorrEntry.factor :=
  ⟨by decide, rfl, by decide, by decide, rfl, by decide⟩

theorem claim_C6_w :
    ("f" ∉ (sOf dfDrop).topFactors.map Factor.factor ∧
      "f" ∉ (sOf dfDrop).allCorrelations.map CorrEntry.factor ∧
      "f" ∉ (sOf dfDrop).excludedColumns.map Prod.fst) ∧
    (⟨"a", roundTo 4 1, roundTo 4 |(1 : ℚ)|⟩ : CorrEntry)
      ∈ correlationsOf pd0 pearson dfBig "t" := by
  constructor
  · exact (claim_C6_amended pd0 pearson dfDrop "t" ⟨by decide, by decide⟩
      ⟨"f", .nums [some 1, some 1, some 2, some 2, some 3, some 3, some 4,
        some 4, some 5, none, none, none]⟩
      (by decide) (by decide) (by decide) rfl).1 (by decide) (sOf dfDrop) rfl
  · exact ((claim_C6_amended pd0 pearson dfBig "t" ⟨by decide, by decide⟩
      ⟨"a", numsOf t12⟩ (by decide) (by decide) (by decide) rfl).2 1
      (by decide) (by decide)).1

theorem claim_C7_w :
    (∃ e ∈ segmentImpactsOf pd0 dfSeg "t", e.factor = "region") ∧
    (∀ e ∈ segmentImpactsOf pd0 dfSeg "t", e.factor = "region" →
      e.meanDifference
        = roundTo 4 (([8] : List ℚ).foldl max 3 - ([8] : List ℚ).foldl min 3) ∧
      e.relativeImpactPct = roundTo 2
        (if (meanQ ((coercedTarget dfSeg "t").filterMap id)).getD 0 ≠ 0
          then |([8] : List ℚ).foldl max 3 - ([8] : List ℚ).foldl min 3|
            / |(meanQ ((coercedTarget dfSeg "t").filterMap id)).getD 0| * 100
          else |([8] : List ℚ).foldl max 3 - ([8] : List ℚ).foldl min 3|)) :=
  (claim_C7 pd0 dfSeg "t" ⟨by decide, by decide⟩
    ⟨"region", .strs [some "x", some "x", some "x", some "x", some "x",
      some "y", some "y", some "y", some "y", some "y"]⟩
    (by decide) (by decide) (by decide)
    [some "x", some "x", some "x", some "x", some "x",
      some "y", some "y", some "y", some "y", some "y"] rfl (by decide)).2
    3 [8] (by decide) (by decide)

theorem claim_C8_w :
    (∃ q1 q3,
      quantileQ ((coercedTarget dfOut "t").filterMap id) (1 / 4) = some q1 ∧
      quantileQ ((coercedTarget dfOut "t").filterMap id) (3 / 4) = some q3 ∧
      (sOf dfOut).outlierCount
        = ((coercedTarget dfOut "t").filterMap id).countP
          (fun v => decide (v < q1 - 3 / 2 * (q3 - q1))
            || decide (q3 + 3 / 2 * (q3 - q1) < v)) ∧
      (sOf dfOut).outlierPercentage
        = roundTo 2 (((sOf dfOut).outlierCount : ℚ)
          / ((sOf dfOut).validRows : ℚ) * 100)) ∧
    (sOf dfOut).outlierCount = 1 :=
  ⟨claim_C8 pd0 pearson dfOut "t" (sOf dfOut) rfl, by decide⟩

theorem claim_C9_w :
    "t" ∉ (sOf dfSeg).topFactors.map Factor.factor ∧
    "t" ∉ (sOf dfSeg).allCorrelations.map CorrEntry.factor ∧
    "t" ∉ (sOf dfSeg).allSegmentImpacts.map SegEntry.factor ∧
    "t" ∉ (sOf dfSeg).excludedColumns.map Prod.fst :=
  claim_C9 pd0 pearson dfSeg "t" (sOf dfSeg) rfl

theorem claim_C10_w :
    (1 ≤ (sOf dfSeg).totalRows ∧ 1 ≤ (sOf dfSeg).validRows ∧
      (9 : ℚ) / 10 * ((sOf dfSeg).totalRows : ℚ) ≤ ((sOf dfSeg).validRows : ℚ) ∧
      (sOf dfSeg).missingPercentage ≤ 10) ∧
    compute pd0 pearson dfZero "t" = Except.error invalidMetricMsg := by
  have h := claim_C10 pd0 pearson dfSeg "t" (sOf dfSeg) ⟨by decide, by decide⟩ rfl
  exact ⟨h.1, h.2 dfZero "t" ⟨"t", .nums []⟩ ⟨by decide, by decide⟩ rfl rfl⟩

end ConcreteRuns

end Data4Viz
